import Mathlib

/-!
Verification of the pi-cam-capture capture abstraction and pattern-validation
engine against its specification.

The Rust source is shallowly embedded as follows:
* `u32` / `u64` arithmetic is `Nat` arithmetic reduced modulo `2^32` / `2^64`
  exactly at the operations the source performs on machine integers;
* `Vec<u8>` is a `Buf`: an explicit length plus a byte-valued function,
  with guarded writes mirroring the source's bounds checks;
* `f32` values are dyadic rationals `Dy` (mantissa times a power of two);
  every `f32` operation of the source (`+`, `-`, `*`, `mul_add`, literal
  parsing) is the exact rational operation followed by `roundF32`,
  IEEE-754 round-to-nearest-even at 24 significand bits (binary32), which
  is exactly what Rust `f32` arithmetic computes (`mul_add` is a fused
  multiply-add: a single rounding of the exact `a*b + c`);
* fallible operations return `Option` / `Except`; a `none` produced by
  `generate_color_bars` or anything that calls it models the Rust
  division-by-zero abort (`x / bar_width` with `bar_width = 0`), which is
  the only abort reachable in the embedded code.
-/

namespace PiCam

/-- `2^32`, the modulus of `u32` arithmetic. -/
def U32 : ℕ := 2 ^ 32

/-- `2^64`, the modulus of `u64` arithmetic. -/
def U64 : ℕ := 2 ^ 64

/-! ## Exact binary32 (`f32`) arithmetic on dyadic rationals -/

/-- Number of binary digits of `n` (`0` for `0`), fuel-based so that the
kernel can evaluate it; the fuel `300` exceeds every bit length occurring
in this development. -/
def bitlen : ℕ → ℕ → ℕ
  | 0, _ => 0
  | fuel+1, n => if n = 0 then 0 else bitlen fuel (n / 2) + 1

/-- A dyadic rational `m * 2^e`: the exact value of an `f32`, or an exact
intermediate result (product, sum) before rounding. Not normalised. -/
structure Dy where
  m : ℤ
  e : ℤ
deriving DecidableEq

/-- The rational value denoted by a `Dy`. -/
def Dy.toQ (a : Dy) : ℚ := (a.m : ℚ) * (2 : ℚ) ^ a.e

/-- IEEE-754 binary32 round-to-nearest, ties to even: round `a` to the
nearest value with at most 24 significand bits (ulp exponent at least
`-149` for subnormals). Faithful for every finite non-overflowing value,
which covers all values in this development. -/
def roundF32 (a : Dy) : Dy :=
  if a.m = 0 then ⟨0, 0⟩
  else
    let s := a.m.natAbs
    let n := bitlen 300 s
    let t : ℤ := max (a.e + n - 24) (-149)
    if t ≤ a.e then a
    else
      let k := (t - a.e).toNat
      let q := s / 2 ^ k
      let r := s % 2 ^ k
      let half := 2 ^ (k - 1)
      let q' := if r < half then q else if half < r then q + 1
                else if q % 2 = 0 then q else q + 1
      ⟨(if a.m < 0 then -(q' : ℤ) else (q' : ℤ)), t⟩

/-- The binary32 value of the decimal literal `n / d` (`n, d > 0`):
round-to-nearest-even of the exact rational, exactly what the Rust
compiler does when parsing an `f32` literal. -/
def litF32 (n d : ℕ) : Dy :=
  let bn := bitlen 300 n
  let bd := bitlen 300 d
  let e0 : ℤ := (bn : ℤ) - (bd : ℤ)
  let ge : Bool := if 0 ≤ e0 then decide (d * 2 ^ e0.toNat ≤ n)
                   else decide (d ≤ n * 2 ^ (-e0).toNat)
  let ev : ℤ := if ge then e0 else e0 - 1
  let t : ℤ := max (ev - 23) (-149)
  if t ≤ 0 then
    let N := n * 2 ^ (-t).toNat
    let q := N / d
    let r := N % d
    let q' := if 2*r < d then q else if d < 2*r then q + 1
              else if q % 2 = 0 then q else q + 1
    ⟨(q' : ℤ), t⟩
  else
    let D := d * 2 ^ t.toNat
    let q := n / D
    let r := n % D
    let q' := if 2*r < D then q else if D < 2*r then q + 1
              else if q % 2 = 0 then q else q + 1
    ⟨(q' : ℤ), t⟩

/-- Exact product of dyadics. -/
def Dy.mul (a b : Dy) : Dy := ⟨a.m * b.m, a.e + b.e⟩

/-- Exact sum of dyadics (align exponents, add mantissas). -/
def Dy.add (a b : Dy) : Dy :=
  if a.e ≤ b.e then ⟨a.m + b.m * 2 ^ (b.e - a.e).toNat, a.e⟩
  else ⟨a.m * 2 ^ (a.e - b.e).toNat + b.m, b.e⟩

/-- Exact negation. -/
def Dy.neg (a : Dy) : Dy := ⟨-a.m, a.e⟩

/-- Exact difference. -/
def Dy.sub (a b : Dy) : Dy := a.add b.neg

/-- Boolean `≤` on dyadic values. -/
def Dy.ble (a b : Dy) : Bool :=
  if a.e ≤ b.e then decide (a.m ≤ b.m * 2 ^ (b.e - a.e).toNat)
  else decide (a.m * 2 ^ (a.e - b.e).toNat ≤ b.m)

/-- Boolean `<` on dyadic values: `f32` comparison of (non-NaN) values. -/
def Dy.blt (a b : Dy) : Bool :=
  if a.e ≤ b.e then decide (a.m < b.m * 2 ^ (b.e - a.e).toNat)
  else decide (a.m * 2 ^ (a.e - b.e).toNat < b.m)

/-- `f32` multiplication: exact product, one rounding. -/
def Dy.fmul (a b : Dy) : Dy := roundF32 (a.mul b)

/-- `f32` subtraction: exact difference, one rounding. -/
def Dy.fsub (a b : Dy) : Dy := roundF32 (a.sub b)

/-- `f32::mul_add a b c` (fused multiply-add): exact `a*b + c`, one rounding. -/
def Dy.fma (a b c : Dy) : Dy := roundF32 ((a.mul b).add c)

/-- Truncation of a nonnegative dyadic to a natural number (Rust `as u8`
after the clamp has established `0 <= val <= 255`). -/
def Dy.truncNat (a : Dy) : ℕ :=
  if 0 ≤ a.e then a.m.toNat * 2 ^ a.e.toNat else a.m.toNat / 2 ^ (-a.e).toNat

/-- The embedded value of a `u8` as an `f32` (`f32::from` is exact). -/
def dyN (n : ℕ) : Dy := ⟨(n : ℤ), 0⟩

/-- `1.402f32`. -/
def f32c1402 : Dy := litF32 1402 1000
/-- `0.714_14f32`. -/
def f32c71414 : Dy := litF32 71414 100000
/-- `0.344_14f32`. -/
def f32c34414 : Dy := litF32 34414 100000
/-- `1.772f32`. -/
def f32c1772 : Dy := litF32 1772 1000
/-- `0.299f32`. -/
def f32c299 : Dy := litF32 299 1000
/-- `0.587f32`. -/
def f32c587 : Dy := litF32 587 1000
/-- `0.114f32`. -/
def f32c114 : Dy := litF32 114 1000

/-! ## Data model (`src/traits.rs`) -/

/-- Pixel format tag: `pub struct FourCC(pub [u8; 4])`. -/
structure FourCC where
  code : ℕ × ℕ × ℕ × ℕ
deriving DecidableEq

/-- `FourCC::YUYV = FourCC::new(b"YUYV")`. -/
def FourCC.YUYV : FourCC := ⟨(89, 85, 89, 86)⟩
/-- `FourCC::MJPG`. -/
def FourCC.MJPG : FourCC := ⟨(77, 74, 80, 71)⟩
/-- `FourCC::RGB3`. -/
def FourCC.RGB3 : FourCC := ⟨(82, 71, 66, 51)⟩

/-- Video format specification (`struct Format`), all integer fields `u32`. -/
structure Format where
  width : ℕ
  height : ℕ
  fourcc : FourCC
  stride : ℕ
  size : ℕ
deriving DecidableEq

/-- `Format::new`: `stride = width * 2` (YUYV is 2 bytes per pixel) and
`size = stride * height`, in `u32` arithmetic. -/
def Format.new (width height : ℕ) (fourcc : FourCC) : Format :=
  let stride := width * 2 % U32
  let size := stride * height % U32
  ⟨width, height, fourcc, stride, size⟩

/-- `struct DeviceCapabilities`. -/
structure DeviceCapabilities where
  driver : String
  card : String
  bus_info : String
  can_capture : Bool
  can_stream : Bool
deriving DecidableEq

/-- `struct FrameMetadata`; `timestamp` is the `Duration` in milliseconds. -/
structure FrameMetadata where
  sequence : ℕ
  timestamp : ℕ
  bytes_used : ℕ
deriving DecidableEq

/-- A `Vec<u8>` frame buffer: a length together with the byte at each
index (bytes at indices `≥ len` are irrelevant). -/
structure Buf where
  len : ℕ
  val : ℕ → ℕ

/-- `data[i] = v` (call sites guard `i` in bounds exactly as the source does). -/
def Buf.set (d : Buf) (i v : ℕ) : Buf :=
  ⟨d.len, fun j => if j = i then v else d.val j⟩

/-- `data.get(i)`: `Some` byte if `i` is in bounds, else `None`. -/
def Buf.get? (d : Buf) (i : ℕ) : Option ℕ :=
  if i < d.len then some (d.val i) else none

/-- A captured video frame (`struct Frame`). -/
structure Frame where
  data : Buf
  metadata : FrameMetadata

/-- `enum CameraError` (the payload of `Io` is rendered as a string). -/
inductive CameraError where
  | DeviceNotFound (index : ℕ)
  | DeviceOpenFailed (msg : String)
  | FormatNotSupported (format : Format)
  | StreamError (msg : String)
  | Timeout
  | Io (msg : String)
deriving DecidableEq

/-- `fn yuv_to_rgb(y, u, v) -> (u8, u8, u8)`: ITU-R BT.601 conversion in
`f32`, each channel clamped to `[0, 255]` and truncated. -/
def yuv_to_rgb (y u v : ℕ) : ℕ × ℕ × ℕ :=
  let y_f := dyN y
  let u_f := Dy.fsub (dyN u) (dyN 128)
  let v_f := Dy.fsub (dyN v) (dyN 128)
  let r := Dy.fma f32c1402 v_f y_f
  let g := Dy.fma f32c71414 (Dy.neg v_f) (Dy.fma f32c34414 (Dy.neg u_f) y_f)
  let b := Dy.fma f32c1772 u_f y_f
  let clamp : Dy → ℕ := fun val =>
    if Dy.blt val (dyN 0) then 0
    else if Dy.blt (dyN 255) val then 255
    else Dy.truncNat val
  (clamp r, clamp g, clamp b)

/-- `Frame::pixel_at(x, y, width)`: locate the 4-byte YUYV group of the
even pair coordinate and read luma (by parity of `x`) plus the shared
chroma pair; `None` when the group exceeds the buffer. -/
def Frame.pixel_at (fr : Frame) (x y width : ℕ) : Option (ℕ × ℕ × ℕ) :=
  let pair_x := x - x % 2
  let offset := ((y * width) % U32 + pair_x) % U32 * 2 % U32
  if offset + 3 ≥ fr.data.len then none
  else
    match (if x % 2 = 0 then fr.data.get? offset else fr.data.get? (offset + 2)),
          fr.data.get? (offset + 1), fr.data.get? (offset + 3) with
    | some y_val, some u, some v => some (yuv_to_rgb y_val u v)
    | _, _, _ => none

/-! ## Mock device and synthetic pattern generator (`src/mock.rs`) -/

/-- Test pattern types (`enum TestPattern`). -/
inductive TestPattern where
  | ColorBars
  | Gradient
  | Solid (y u v : ℕ)
deriving DecidableEq

/-- Mock device state (`struct MockDevice`). -/
structure MockDevice where
  capabilities : DeviceCapabilities
  format : Format
  frame_count : ℕ
deriving DecidableEq

/-- `MockDevice::new()`. -/
def MockDevice.new : MockDevice :=
  { capabilities :=
      { driver := "mock", card := "Mock Camera", bus_info := "mock:0"
        can_capture := true, can_stream := true }
    format := Format.new 640 480 FourCC.YUYV
    frame_count := 0 }

/-- `MockDevice::with_format`. -/
def MockDevice.with_format (d : MockDevice) (format : Format) : MockDevice :=
  { d with format := format }

/-- `MockDevice::format()` (trait impl): always `Ok` of the stored format. -/
def MockDevice.getFormat (d : MockDevice) : Except CameraError Format :=
  .ok d.format

/-- `MockDevice::set_format`: store the requested format and return it;
the pair is (returned value, updated device). -/
def MockDevice.set_format (d : MockDevice) (format : Format) :
    Except CameraError Format × MockDevice :=
  (.ok format, { d with format := format })

/-- Mock capture stream (`struct MockStream`): it borrows the device, so
its state is the device state plus the selected pattern. -/
structure MockStream where
  device : MockDevice
  pattern : TestPattern
deriving DecidableEq

/-- `MockDevice::create_stream`: always `Ok`, pattern defaults to color bars;
the `buffer_count` argument is ignored by the mock. -/
def MockDevice.create_stream (d : MockDevice) (_buffer_count : ℕ) :
    Except CameraError MockStream :=
  .ok ⟨d, .ColorBars⟩

/-- `MockStream::with_pattern`. -/
def MockStream.with_pattern (s : MockStream) (pattern : TestPattern) : MockStream :=
  { s with pattern := pattern }

/-- Write one 4-byte YUYV group at `offset`, guarded exactly like the
source: `if offset + 3 < data.len()`. -/
def writeGroup (d : Buf) (offset y0 u y1 v : ℕ) : Buf :=
  if offset + 3 < d.len then
    ((((d.set offset y0).set (offset + 1) u).set (offset + 2) y1).set (offset + 3) v)
  else d

/-- The eight color bars of `generate_color_bars`, as (Y, U, V) triples:
White, Yellow, Cyan, Green, Magenta, Red, Blue, Black. -/
def mockBars : List (ℕ × ℕ × ℕ) :=
  [(235, 128, 128), (210, 16, 146), (170, 166, 16), (145, 54, 34),
   (106, 202, 222), (81, 90, 240), (41, 240, 110), (16, 128, 128)]

/-- `bars[bar_idx]` for `bar_idx ≤ 7`. -/
def barAt (i : ℕ) : ℕ × ℕ × ℕ := (mockBars.getD i (0, 0, 0))

/-- The iteration values of `(0..width).step_by(2)`. -/
def evenSteps (width : ℕ) : List ℕ :=
  (List.range ((width + 1) / 2)).map (fun i => 2 * i)

/-- `fn generate_color_bars(data, width, height)`. A `none` result models
the Rust division-by-zero abort: the loop body divides by
`bar_width = width / 8`, and the body executes iff `width ≥ 1` and
`height ≥ 1`; otherwise the nested loops write one guarded 4-byte group
per even `x` per row. -/
def generate_color_bars (data : Buf) (width height : ℕ) : Option Buf :=
  let bar_width := width / 8
  if bar_width = 0 ∧ 0 < width ∧ 0 < height then none
  else some ((List.range height).foldl (fun d y =>
    (evenSteps width).foldl (fun d2 x =>
      let bar_idx := min (x / bar_width) 7
      let c := barAt bar_idx
      let offset := ((y * width) % U32 + x) % U32 * 2 % U32
      writeGroup d2 offset c.1 c.2.1 c.1 c.2.2) d) data)

/-- `fn generate_gradient(data, width, height)`: per even `x`,
`y_val = ((x * 255) / width) as u8`, neutral chroma `128`. -/
def generate_gradient (data : Buf) (width height : ℕ) : Buf :=
  (List.range height).foldl (fun d y =>
    (evenSteps width).foldl (fun d2 x =>
      let y_val := (x * 255 % U32) / width % 256
      let offset := ((y * width) % U32 + x) % U32 * 2 % U32
      writeGroup d2 offset y_val 128 y_val 128) d) data

/-- `fn generate_solid(data, y, u, v)`: iterate `(0..len).step_by(4)`. -/
def generate_solid (data : Buf) (y u v : ℕ) : Buf :=
  ((List.range ((data.len + 3) / 4)).map (fun i => 4 * i)).foldl
    (fun d i => writeGroup d i y u y v) data

/-- `fn generate_test_frame(format, pattern)`: allocate
`width * height * 2` zero bytes (`u32` arithmetic) and fill by pattern. -/
def generate_test_frame (format : Format) (pattern : TestPattern) : Option Buf :=
  let size := format.width * format.height % U32 * 2 % U32
  let data : Buf := ⟨size, fun _ => 0⟩
  match pattern with
  | .ColorBars => generate_color_bars data format.width format.height
  | .Gradient => some (generate_gradient data format.width format.height)
  | .Solid y u v => some (generate_solid data y u v)

/-- `MockStream::next_frame`: generate a frame for the device's current
format, return it with the pre-increment counter as `sequence`,
`timestamp = 33ms * sequence` and `bytes_used = format.size`; the counter
increments (`u32`). `none` models the abort propagated from generation. -/
def MockStream.next_frame (s : MockStream) :
    Option (Except CameraError Frame × MockStream) :=
  (generate_test_frame s.device.format s.pattern).map (fun data =>
    let seq := s.device.frame_count
    (.ok { data := data
           metadata := { sequence := seq, timestamp := seq * 33 % U64
                         bytes_used := s.device.format.size } },
     { s with device := { s.device with frame_count := (seq + 1) % U32 } }))

/-! ## Validators (`src/validation.rs`) -/

/-- `SMPTE_COLOR_BARS`: expected RGB triples for the eight bars. -/
def SMPTE_COLOR_BARS : List (ℕ × ℕ × ℕ) :=
  [(235, 235, 235), (235, 235, 11), (12, 236, 237), (13, 237, 13),
   (237, 13, 237), (238, 14, 13), (15, 15, 239), (16, 16, 16)]

/-- `COLOR_TOLERANCE`. -/
def COLOR_TOLERANCE : ℕ := 15

/-- `|a - b|` on naturals (the source's `abs_diff` on `i32`-casts of `u8`s). -/
def absDiff (a b : ℕ) : ℕ := if a ≤ b then b - a else a - b

/-- `fn colors_match(actual, expected, tolerance)`. -/
def colors_match (actual expected : ℕ × ℕ × ℕ) (tolerance : ℕ) : Bool :=
  decide (absDiff actual.1 expected.1 ≤ tolerance) &&
  decide (absDiff actual.2.1 expected.2.1 ≤ tolerance) &&
  decide (absDiff actual.2.2 expected.2.2 ≤ tolerance)

/-- The `for (bar_idx, expected_rgb) in SMPTE_COLOR_BARS.iter().enumerate()`
loop of `validate_color_bars`, with its early returns. -/
def checkBars (fr : Frame) (width bar_width center_y : ℕ) :
    List (ℕ × (ℕ × ℕ × ℕ)) → Except CameraError Unit
  | [] => .ok ()
  | (bar_idx, expected_rgb) :: rest =>
    let sample_x := (bar_idx % U32 * bar_width % U32 + bar_width / 2) % U32
    match fr.pixel_at sample_x center_y width with
    | none =>
      .error (.StreamError ("Failed to get pixel at (" ++ Nat.repr sample_x ++
        ", " ++ Nat.repr center_y ++ ")"))
    | some actual_rgb =>
      if colors_match actual_rgb expected_rgb COLOR_TOLERANCE then
        checkBars fr width bar_width center_y rest
      else
        .error (.StreamError ("Color bar " ++ Nat.repr bar_idx ++
          " mismatch at (" ++ Nat.repr sample_x ++ ", " ++ Nat.repr center_y ++
          "): expected RGB" ++ reprStr expected_rgb ++ ", got RGB" ++
          reprStr actual_rgb))

/-- `fn validate_color_bars(frame, format)`. -/
def validate_color_bars (fr : Frame) (format : Format) : Except CameraError Unit :=
  let width := format.width
  let height := format.height
  let bar_width := width / 8
  let center_y := height / 2
  checkBars fr width bar_width center_y SMPTE_COLOR_BARS.enum

/-- Luminance `0.114.mul_add(b, 0.587.mul_add(g, 0.299 * r))` in `f32`. -/
def luminance (rgb : ℕ × ℕ × ℕ) : Dy :=
  Dy.fma f32c114 (dyN rgb.2.2) (Dy.fma f32c587 (dyN rgb.2.1) (Dy.fmul f32c299 (dyN rgb.1)))

/-- The iteration values of `(0..width).step_by(10)`. -/
def tenSteps (width : ℕ) : List ℕ :=
  (List.range ((width + 9) / 10)).map (fun i => 10 * i)

/-- The sampling loop of `validate_gradient`, carrying
`(first, prev, last)` luminances; returns `(first, last)` on success. -/
def gradLoop (fr : Frame) (width center_y : ℕ) :
    List ℕ → Option Dy → Option Dy → Option Dy →
    Except CameraError (Option Dy × Option Dy)
  | [], first, _, last => .ok (first, last)
  | x :: rest, first, prev, _ =>
    match fr.pixel_at x center_y width with
    | none =>
      .error (.StreamError ("Failed to get pixel at (" ++ Nat.repr x ++ ", " ++
        Nat.repr center_y ++ ")"))
    | some rgb =>
      let lum := luminance rgb
      let first' := match first with | none => some lum | some f => some f
      match prev with
      | some p =>
        if Dy.blt lum (Dy.fsub p (dyN 1)) then
          .error (.StreamError ("Gradient not monotonically increasing at x=" ++
            Nat.repr x))
        else gradLoop fr width center_y rest first' (some lum) (some lum)
      | none => gradLoop fr width center_y rest first' (some lum) (some lum)

/-- `fn validate_gradient(frame, format)`. -/
def validate_gradient (fr : Frame) (format : Format) : Except CameraError Unit :=
  let width := format.width
  let height := format.height
  let center_y := height / 2
  match gradLoop fr width center_y (tenSteps width) none none none with
  | .error e => .error e
  | .ok (first, last) =>
    match first, last with
    | some f, some l =>
      if Dy.blt (Dy.fsub l f) (dyN 50) then
        .error (.StreamError ("Insufficient luminance change for gradient"))
      else .ok ()
    | _, _ => .ok ()

/-- One iteration of the `for i in 1..frames.len()` loop of
`validate_frame_sequence` (the `acc.bind` makes the first error stick,
matching the source's early return). -/
def seqStep (frames : List Frame) (acc : Except CameraError Unit) (i : ℕ) :
    Except CameraError Unit :=
  acc.bind (fun _ =>
    match frames.get? (i - 1) with
    | none => .error (.StreamError ("Failed to get frame at index " ++ Nat.repr (i - 1)))
    | some prev_frame =>
      match frames.get? i with
      | none => .error (.StreamError ("Failed to get frame at index " ++ Nat.repr i))
      | some curr_frame =>
        let prev_seq := prev_frame.metadata.sequence
        let curr_seq := curr_frame.metadata.sequence
        if curr_seq ≠ (prev_seq + 1) % U32 then
          .error (.StreamError ("Frame sequence gap at index " ++ Nat.repr i ++
            ": expected " ++ Nat.repr ((prev_seq + 1) % U32) ++ ", got " ++
            Nat.repr curr_seq))
        else .ok ())

/-- `fn validate_frame_sequence(frames)`. -/
def validate_frame_sequence (frames : List Frame) : Except CameraError Unit :=
  if frames.isEmpty then
    .error (.StreamError ("Cannot validate empty frame sequence"))
  else
    (List.range' 1 (frames.length - 1)).foldl (seqStep frames) (.ok ())

/-! ## Generic lemmas about sequences of guarded 4-byte group writes -/

/-- Byte `k` of a 4-byte group. -/
def grpByte (g : ℕ × ℕ × ℕ × ℕ) : ℕ → ℕ
  | 0 => g.1
  | 1 => g.2.1
  | 2 => g.2.2.1
  | _ => g.2.2.2

/-- One write step: a `writeGroup` at a given offset with given bytes. -/
def stepW (d : Buf) (s : ℕ × (ℕ × ℕ × ℕ × ℕ)) : Buf :=
  writeGroup d s.1 s.2.1 s.2.2.1 s.2.2.2.1 s.2.2.2.2

/-- Run a list of write steps left to right. -/
def runSteps (steps : List (ℕ × (ℕ × ℕ × ℕ × ℕ))) (d : Buf) : Buf :=
  steps.foldl stepW d

theorem Buf.set_len (d : Buf) (i v : ℕ) : (d.set i v).len = d.len := rfl

theorem writeGroup_len (d : Buf) (o a b c e : ℕ) :
    (writeGroup d o a b c e).len = d.len := by
  unfold writeGroup; split <;> rfl

theorem stepW_len (d : Buf) (s : ℕ × (ℕ × ℕ × ℕ × ℕ)) :
    (stepW d s).len = d.len := writeGroup_len ..

theorem runSteps_len (steps : List (ℕ × (ℕ × ℕ × ℕ × ℕ))) (d : Buf) :
    (runSteps steps d).len = d.len := by
  induction steps generalizing d with
  | nil => rfl
  | cons s rest ih => rw [runSteps, List.foldl_cons, ← runSteps, ih, stepW_len]

theorem Buf.set_val_ne (d : Buf) (i v j : ℕ) (h : j ≠ i) :
    (d.set i v).val j = d.val j := by
  simp [Buf.set, h]

theorem writeGroup_val_untouched (d : Buf) (o a b c e j : ℕ)
    (h : j < o ∨ o + 3 < j) : (writeGroup d o a b c e).val j = d.val j := by
  unfold writeGroup
  split
  · rw [Buf.set_val_ne _ _ _ _ (by omega), Buf.set_val_ne _ _ _ _ (by omega),
      Buf.set_val_ne _ _ _ _ (by omega), Buf.set_val_ne _ _ _ _ (by omega)]
  · rfl

theorem runSteps_val_untouched (steps : List (ℕ × (ℕ × ℕ × ℕ × ℕ))) (d : Buf)
    (j : ℕ) (h : ∀ s ∈ steps, j < s.1 ∨ s.1 + 3 < j) :
    (runSteps steps d).val j = d.val j := by
  induction steps generalizing d with
  | nil => rfl
  | cons s rest ih =>
    rw [runSteps, List.foldl_cons, ← runSteps, ih _ (fun t ht => h t (List.mem_cons_of_mem s ht))]
    exact writeGroup_val_untouched _ _ _ _ _ _ _ (h s (List.mem_cons_self s rest))

theorem writeGroup_val_at (d : Buf) (o a b c e : ℕ) (hlt : o + 3 < d.len)
    (k : ℕ) (hk : k < 4) :
    (writeGroup d o a b c e).val (o + k) = grpByte (a, b, c, e) k := by
  unfold writeGroup
  rw [if_pos hlt]
  interval_cases k <;> simp [Buf.set, grpByte]

theorem runSteps_split (pre post : List (ℕ × (ℕ × ℕ × ℕ × ℕ)))
    (s : ℕ × (ℕ × ℕ × ℕ × ℕ)) (d : Buf) (k : ℕ) (hk : k < 4)
    (hlen : s.1 + 3 < d.len)
    (hpost : ∀ t ∈ post, s.1 + k < t.1 ∨ t.1 + 3 < s.1 + k) :
    (runSteps (pre ++ s :: post) d).val (s.1 + k) = grpByte s.2 k := by
  rw [runSteps, List.foldl_append, List.foldl_cons]
  rw [show List.foldl stepW (stepW (List.foldl stepW d pre) s) post
      = runSteps post (stepW (runSteps pre d) s) from rfl]
  rw [runSteps_val_untouched _ _ _ hpost]
  have hl : s.1 + 3 < (runSteps pre d).len := by rw [runSteps_len]; exact hlen
  exact writeGroup_val_at _ _ _ _ _ _ hl k hk

/-- Folding over a `flatMap` is the nested fold. -/
theorem foldl_flatMap_eq {α β : Type} (l : List α) (f : α → List β)
    (g : Buf → β → Buf) (d : Buf) :
    (l.flatMap f).foldl g d = l.foldl (fun acc a => (f a).foldl g acc) d := by
  induction l generalizing d with
  | nil => rfl
  | cons a rest ih => rw [List.flatMap_cons, List.foldl_append, List.foldl_cons, ih]

/-! ## The generators as step lists -/

/-- The write steps performed by a row-by-row generator whose group bytes
depend only on `x` (both `generate_color_bars` and `generate_gradient`). -/
def rowSteps (w h : ℕ) (gf : ℕ → ℕ × ℕ × ℕ × ℕ) : List (ℕ × (ℕ × ℕ × ℕ × ℕ)) :=
  (List.range h).flatMap (fun y =>
    (evenSteps w).map (fun x => (((y * w) % U32 + x) % U32 * 2 % U32, gf x)))

/-- The 4-byte group written by `generate_color_bars` at even column `x`. -/
def barGrp (w x : ℕ) : ℕ × ℕ × ℕ × ℕ :=
  let c := barAt (min (x / (w / 8)) 7)
  (c.1, c.2.1, c.1, c.2.2)

/-- The 4-byte group written by `generate_gradient` at even column `x`. -/
def gradGrp (w x : ℕ) : ℕ × ℕ × ℕ × ℕ :=
  let y_val := (x * 255 % U32) / w % 256
  (y_val, 128, y_val, 128)

theorem generate_color_bars_eq_runSteps (data : Buf) (w h : ℕ) (hbw : 0 < w / 8) :
    generate_color_bars data w h = some (runSteps (rowSteps w h (barGrp w)) data) := by
  unfold generate_color_bars
  rw [if_neg (by omega)]
  unfold runSteps rowSteps
  rw [foldl_flatMap_eq]
  simp only [List.foldl_map]
  rfl

theorem generate_gradient_eq_runSteps (data : Buf) (w h : ℕ) :
    generate_gradient data w h = runSteps (rowSteps w h (gradGrp w)) data := by
  unfold generate_gradient
  unfold runSteps rowSteps
  rw [foldl_flatMap_eq]
  simp only [List.foldl_map]
  rfl

/-! ## Characterisation of the generated buffers -/

theorem offset_simp (w y x : ℕ) (h : (y * w + x) * 2 < U32) :
    ((y * w) % U32 + x) % U32 * 2 % U32 = (y * w + x) * 2 := by
  have h1 : (y * w) % U32 = y * w := Nat.mod_eq_of_lt (by omega)
  rw [h1]
  have h2 : (y * w + x) % U32 = y * w + x := Nat.mod_eq_of_lt (by omega)
  rw [h2]
  exact Nat.mod_eq_of_lt h

theorem range_decomp (y h : ℕ) (hy : y < h) :
    List.range h
      = List.range y ++ y :: (List.range (h - y - 1)).map (fun t => y + 1 + t) := by
  have e : h = (y + 1) + (h - y - 1) := by omega
  conv_lhs => rw [e]
  rw [List.range_add, List.range_succ, List.append_assoc, List.singleton_append]

theorem rowOffBound (w h y x : ℕ) (_hov : 2 * w * h < U32) (hy : y < h)
    (hx : x + 2 ≤ w) : (y * w + x) * 2 + 3 < 2 * w * h := by
  have h1 : (y + 1) * w ≤ h * w := Nat.mul_le_mul_right w (by omega)
  have h2 : (y + 1) * w = y * w + w := by ring
  have h3 : 2 * w * h = 2 * (h * w) := by ring
  omega

theorem mem_evenSteps (w x : ℕ) (hx : x ∈ evenSteps w) :
    x % 2 = 0 ∧ x + 2 ≤ 2 * ((w + 1) / 2) := by
  rw [evenSteps] at hx
  obtain ⟨t, ht, rfl⟩ := List.mem_map.mp hx
  have := List.mem_range.mp ht
  omega

theorem rowSteps_char (w h : ℕ) (gf : ℕ → ℕ × ℕ × ℕ × ℕ) (b : Buf)
    (hw2 : w % 2 = 0) (hov : 2 * w * h < U32) (hlen : b.len = 2 * w * h)
    (y x k : ℕ) (hy : y < h) (hx : x < w) (hxe : x % 2 = 0) (hk : k < 4) :
    (runSteps (rowSteps w h gf) b).val ((y * w + x) * 2 + k) = grpByte (gf x) k := by
  have hw0 : 0 < w := by omega
  have hxw : x + 2 ≤ w := by omega
  have hb : (y * w + x) * 2 + 3 < 2 * w * h := rowOffBound w h y x hov hy hxw
  have hbU : (y * w + x) * 2 < U32 := by
    have : 2 * w * h < U32 := hov
    omega
  set stepf : ℕ → ℕ → ℕ × (ℕ × ℕ × ℕ × ℕ) :=
    fun y' x' => (((y' * w) % U32 + x') % U32 * 2 % U32, gf x') with hstepf
  -- bound for an arbitrary written cell
  have hoffb : ∀ y' x', y' < h → x' + 2 ≤ w →
      (stepf y' x').1 = (y' * w + x') * 2 ∧ (y' * w + x') * 2 + 3 < 2 * w * h := by
    intro y' x' hy' hx'
    have hb' := rowOffBound w h y' x' hov hy' hx'
    exact ⟨offset_simp w y' x' (by omega), hb'⟩
  -- decompose the step list around the (y, x) write
  have hi : x = 2 * (x / 2) := by omega
  set i := x / 2 with hidef
  have hiw : i < w / 2 := by omega
  have hev : evenSteps w
      = (List.range i).map (fun t => 2 * t)
        ++ (2 * i) :: (List.range (w / 2 - i - 1)).map (fun t => 2 * (i + 1 + t)) := by
    rw [evenSteps, show (w + 1) / 2 = w / 2 by omega, range_decomp i (w / 2) hiw,
      List.map_append, List.map_cons, List.map_map]
    rfl
  have hdec : rowSteps w h gf
      = ((List.range y).flatMap (fun y' => (evenSteps w).map (stepf y'))
          ++ ((List.range i).map (fun t => 2 * t)).map (stepf y))
        ++ stepf y x
          :: (((List.range (w / 2 - i - 1)).map (fun t => 2 * (i + 1 + t))).map (stepf y)
            ++ ((List.range (h - y - 1)).map (fun t => y + 1 + t)).flatMap
                (fun y' => (evenSteps w).map (stepf y'))) := by
    rw [rowSteps, range_decomp y h hy, List.flatMap_append, List.flatMap_cons]
    rw [hev, List.map_append, List.map_cons]
    rw [← hi]
    simp only [List.append_assoc, List.cons_append]
  have hsx : (stepf y x).1 = (y * w + x) * 2 := offset_simp w y x hbU
  have goal1 : (runSteps (rowSteps w h gf) b).val ((stepf y x).1 + k)
      = grpByte (stepf y x).2 k := by
    rw [hdec]
    apply runSteps_split _ _ _ _ k hk
    · rw [hsx, hlen]; omega
    · intro t ht
      rcases List.mem_append.mp ht with htq | htb
      · -- later columns of the same row
        obtain ⟨x', hx', rfl⟩ := List.mem_map.mp htq
        obtain ⟨tt, htt, rfl⟩ := List.mem_map.mp hx'
        have httr := List.mem_range.mp htt
        have hx'w : 2 * (i + 1 + tt) + 2 ≤ w := by omega
        have h1 := (hoffb y (2 * (i + 1 + tt)) hy hx'w).1
        left
        rw [h1, hsx]
        have : y * w + x + 2 ≤ y * w + 2 * (i + 1 + tt) := by omega
        omega
      · -- later rows
        obtain ⟨y', hy', ht'⟩ := List.mem_flatMap.mp htb
        obtain ⟨yy, hyy, rfl⟩ := List.mem_map.mp hy'
        have hyyr := List.mem_range.mp hyy
        obtain ⟨x', hx', rfl⟩ := List.mem_map.mp ht'
        have hx'p := mem_evenSteps w x' hx'
        have hx'w : x' + 2 ≤ w := by omega
        have hyh : y + 1 + yy < h := by omega
        have h1 := (hoffb (y + 1 + yy) x' hyh hx'w).1
        left
        rw [h1, hsx]
        have h2 : (y + 1) * w ≤ (y + 1 + yy) * w := Nat.mul_le_mul_right w (by omega)
        have h3 : (y + 1) * w = y * w + w := by ring
        omega
  rw [hsx] at goal1
  exact goal1

/-- `pixel_at` on a buffer produced by a row-by-row generator whose groups
repeat the luma byte: the pixel decodes the group of the even pair column. -/
theorem pixel_at_rowSteps (w h : ℕ) (gf : ℕ → ℕ × ℕ × ℕ × ℕ) (meta : FrameMetadata)
    (hw2 : w % 2 = 0) (hov : 2 * w * h < U32)
    (x y : ℕ) (hx : x < w) (hy : y < h)
    (hrep : (gf (x - x % 2)).2.2.1 = (gf (x - x % 2)).1) :
    Frame.pixel_at ⟨runSteps (rowSteps w h gf) ⟨2 * w * h, fun _ => 0⟩, meta⟩ x y w
      = some (yuv_to_rgb (gf (x - x % 2)).1 (gf (x - x % 2)).2.1 (gf (x - x % 2)).2.2.2) := by
  set px := x - x % 2 with hpx
  have hpxe : px % 2 = 0 := by omega
  have hpxw : px + 2 ≤ w := by omega
  have hpxlt : px < w := by omega
  have hb : (y * w + px) * 2 + 3 < 2 * w * h := rowOffBound w h y px hov hy hpxw
  have hbU : (y * w + px) * 2 < U32 := by omega
  have hlen : (runSteps (rowSteps w h gf) ⟨2 * w * h, fun _ => 0⟩).len = 2 * w * h :=
    runSteps_len _ _
  have hchar : ∀ k, k < 4 →
      (runSteps (rowSteps w h gf) ⟨2 * w * h, fun _ => 0⟩).val ((y * w + px) * 2 + k)
        = grpByte (gf px) k :=
    fun k hk => rowSteps_char w h gf _ hw2 hov rfl y px k hy hpxlt hpxe hk
  rw [Frame.pixel_at]
  simp only
  rw [show x - x % 2 = px from rfl]
  rw [offset_simp w y px hbU]
  rw [if_neg (by simp only [hlen]; omega)]
  have hg0 : Buf.get? (runSteps (rowSteps w h gf) ⟨2 * w * h, fun _ => 0⟩)
      ((y * w + px) * 2) = some (grpByte (gf px) 0) := by
    rw [Buf.get?, if_pos (by omega)]
    have := hchar 0 (by omega)
    rw [Nat.add_zero] at this
    rw [this]
  have hg1 : Buf.get? (runSteps (rowSteps w h gf) ⟨2 * w * h, fun _ => 0⟩)
      ((y * w + px) * 2 + 1) = some (grpByte (gf px) 1) := by
    rw [Buf.get?, if_pos (by omega), hchar 1 (by omega)]
  have hg2 : Buf.get? (runSteps (rowSteps w h gf) ⟨2 * w * h, fun _ => 0⟩)
      ((y * w + px) * 2 + 2) = some (grpByte (gf px) 2) := by
    rw [Buf.get?, if_pos (by omega), hchar 2 (by omega)]
  have hg3 : Buf.get? (runSteps (rowSteps w h gf) ⟨2 * w * h, fun _ => 0⟩)
      ((y * w + px) * 2 + 3) = some (grpByte (gf px) 3) := by
    rw [Buf.get?, if_pos (by omega), hchar 3 (by omega)]
  by_cases hpar : x % 2 = 0
  · rw [if_pos hpar, hg0, hg1, hg3]
    rfl
  · rw [if_neg hpar, hg2, hg1, hg3]
    rw [show grpByte (gf px) 2 = (gf px).2.2.1 from rfl, hrep]
    rfl

/-! ## Order on dyadics and facts about gray-level luminance -/

theorem Dy.ble_iff (a b : Dy) : a.ble b = true ↔ a.toQ ≤ b.toQ := by
  have h2 : (0 : ℚ) < 2 := by norm_num
  rw [Dy.ble, Dy.toQ, Dy.toQ]
  split
  next hle =>
    rw [decide_eq_true_iff]
    set k := (b.e - a.e).toNat with hkdef
    have hk : b.e = a.e + (k : ℤ) := by omega
    rw [hk, zpow_add₀ (by norm_num : (2:ℚ) ≠ 0), zpow_natCast]
    rw [show (b.m : ℚ) * ((2:ℚ) ^ a.e * (2:ℚ) ^ (k:ℕ)) = ((b.m * 2 ^ k : ℤ) : ℚ) * (2:ℚ) ^ a.e by
      push_cast; ring]
    rw [mul_le_mul_right (zpow_pos h2 a.e)]
    exact Int.cast_le.symm
  next hle =>
    rw [decide_eq_true_iff]
    set k := (a.e - b.e).toNat with hkdef
    have hk : a.e = b.e + (k : ℤ) := by omega
    rw [hk, zpow_add₀ (by norm_num : (2:ℚ) ≠ 0), zpow_natCast]
    rw [show (a.m : ℚ) * ((2:ℚ) ^ b.e * (2:ℚ) ^ (k:ℕ)) = ((a.m * 2 ^ k : ℤ) : ℚ) * (2:ℚ) ^ b.e by
      push_cast; ring]
    rw [mul_le_mul_right (zpow_pos h2 b.e)]
    exact Int.cast_le.symm

theorem Dy.blt_iff (a b : Dy) : a.blt b = true ↔ a.toQ < b.toQ := by
  have h2 : (0 : ℚ) < 2 := by norm_num
  rw [Dy.blt, Dy.toQ, Dy.toQ]
  split
  next hle =>
    rw [decide_eq_true_iff]
    set k := (b.e - a.e).toNat with hkdef
    have hk : b.e = a.e + (k : ℤ) := by omega
    rw [hk, zpow_add₀ (by norm_num : (2:ℚ) ≠ 0), zpow_natCast]
    rw [show (b.m : ℚ) * ((2:ℚ) ^ a.e * (2:ℚ) ^ (k:ℕ)) = ((b.m * 2 ^ k : ℤ) : ℚ) * (2:ℚ) ^ a.e by
      push_cast; ring]
    rw [mul_lt_mul_right (zpow_pos h2 a.e)]
    exact Int.cast_lt.symm
  next hle =>
    rw [decide_eq_true_iff]
    set k := (a.e - b.e).toNat with hkdef
    have hk : a.e = b.e + (k : ℤ) := by omega
    rw [hk, zpow_add₀ (by norm_num : (2:ℚ) ≠ 0), zpow_natCast]
    rw [show (a.m : ℚ) * ((2:ℚ) ^ b.e * (2:ℚ) ^ (k:ℕ)) = ((a.m * 2 ^ k : ℤ) : ℚ) * (2:ℚ) ^ b.e by
      push_cast; ring]
    rw [mul_lt_mul_right (zpow_pos h2 b.e)]
    exact Int.cast_lt.symm

/-- Luminance of the gray RGB triple `(g, g, g)`. -/
def grayLum (g : ℕ) : Dy := luminance (g, g, g)

set_option maxRecDepth 4000 in
theorem yuv_gray : ∀ g : Fin 256, yuv_to_rgb g.val 128 128 = (g.val, g.val, g.val) := by decide

set_option maxRecDepth 4000 in
theorem grayLum_mono_succ :
    ∀ g : Fin 255, Dy.ble (grayLum g.val) (grayLum (g.val + 1)) = true := by decide

set_option maxRecDepth 4000 in
theorem grayLum_slack :
    ∀ g : Fin 256, Dy.ble (Dy.fsub (grayLum g.val) (dyN 1)) (grayLum g.val) = true := by decide

set_option maxRecDepth 4000 in
theorem grayLum_change :
    ∀ g : Fin 256, 50 ≤ g.val → Dy.ble (dyN 50) (Dy.fsub (grayLum g.val) (grayLum 0)) = true := by
  decide

theorem grayLum_mono (a b : ℕ) (hab : a ≤ b) (hb : b ≤ 255) :
    (grayLum a).toQ ≤ (grayLum b).toQ := by
  induction b with
  | zero =>
    have : a = 0 := by omega
    subst this
    exact le_refl _
  | succ n ih =>
    rcases Nat.lt_or_ge a (n + 1) with hlt | hge
    · have h1 : (grayLum a).toQ ≤ (grayLum n).toQ := ih (by omega) (by omega)
      have h2 : (grayLum n).toQ ≤ (grayLum (n + 1)).toQ :=
        (Dy.ble_iff _ _).mp (grayLum_mono_succ ⟨n, by omega⟩)
      exact le_trans h1 h2
    · have : a = n + 1 := by omega
      subst this
      exact le_refl _

/-! ## Color-bar round trip (spec section 8, first property) -/

theorem checkBars_ok (fr : Frame) (w bw cy : ℕ) :
    ∀ L : List (ℕ × (ℕ × ℕ × ℕ)),
    (∀ p ∈ L, ∃ rgb,
      fr.pixel_at ((p.1 % U32 * bw % U32 + bw / 2) % U32) cy w = some rgb ∧
      colors_match rgb p.2 COLOR_TOLERANCE = true) →
    checkBars fr w bw cy L = .ok ()
  | [], _ => rfl
  | (bar_idx, expected_rgb) :: rest, H => by
    obtain ⟨rgb, hp, hc⟩ := H (bar_idx, expected_rgb) (List.mem_cons_self _ _)
    simp only [checkBars]
    rw [hp]
    show (if colors_match rgb expected_rgb COLOR_TOLERANCE = true then
        checkBars fr w bw cy rest else _) = _
    rw [if_pos hc]
    exact checkBars_ok fr w bw cy rest (fun q hq => H q (List.mem_cons_of_mem _ hq))

set_option maxRecDepth 4000 in
theorem bars_rgb_ok : ∀ i : Fin 8,
    colors_match (yuv_to_rgb (barAt i.val).1 (barAt i.val).2.1 (barAt i.val).2.2)
      (SMPTE_COLOR_BARS.getD i.val (0, 0, 0)) COLOR_TOLERANCE = true := by decide

theorem c1_pixel (k h : ℕ) (m : FrameMetadata) (hk : 2 ≤ k) (hh : 1 ≤ h)
    (hov : 2 * (8 * k) * h < U32) (i : ℕ) (hi : i ≤ 7) :
    Frame.pixel_at
        ⟨runSteps (rowSteps (8 * k) h (barGrp (8 * k))) ⟨2 * (8 * k) * h, fun _ => 0⟩, m⟩
        ((i % U32 * k % U32 + k / 2) % U32) (h / 2) (8 * k)
      = some (yuv_to_rgb (barAt i).1 (barAt i).2.1 (barAt i).2.2) := by
  have hkh : k ≤ k * h := Nat.le_mul_of_pos_right k (by omega)
  have hr : 2 * (8 * k) * h = 16 * (k * h) := by ring
  have hkU : k < U32 := by omega
  have hik : i * k ≤ 7 * k := Nat.mul_le_mul_right k hi
  have hsx : (i % U32 * k % U32 + k / 2) % U32 = i * k + k / 2 := by
    rw [Nat.mod_eq_of_lt (by omega : i < U32)]
    rw [Nat.mod_eq_of_lt (by omega : i * k < U32)]
    exact Nat.mod_eq_of_lt (by omega)
  rw [hsx]
  set x := i * k + k / 2 with hxdef
  have hx : x < 8 * k := by omega
  have hcy : h / 2 < h := by omega
  have hrep : (barGrp (8 * k) (x - x % 2)).2.2.1 = (barGrp (8 * k) (x - x % 2)).1 := rfl
  rw [pixel_at_rowSteps (8 * k) h (barGrp (8 * k)) m (by omega) hov x (h / 2) hx hcy hrep]
  have h8 : 8 * k / 8 = k := by omega
  have hik1 : (i + 1) * k = i * k + k := by ring
  have hdiv : (x - x % 2) / k = i := by
    apply Nat.div_eq_of_lt_le
    · omega
    · omega
  have hbar : barGrp (8 * k) (x - x % 2)
      = ((barAt i).1, (barAt i).2.1, (barAt i).1, (barAt i).2.2) := by
    rw [barGrp]
    simp only [h8, hdiv]
    rw [min_eq_left hi]
  rw [hbar]

/-- C1 (amended): for `width` a multiple of 8 with `width ≥ 16`, `height ≥ 1`
and `width * height * 2` within `u32` range, a synthetic color-bar frame for
`Format::new(width, height, YUYV)` passes `validate_color_bars` against the
same format. (At `width = 8` the claim fails, see the counterexample.) -/
theorem color_bars_validate_generated (w h k : ℕ) (m : FrameMetadata)
    (hw : w = 8 * k) (hk : 2 ≤ k) (hh : 1 ≤ h) (hov : 2 * w * h < U32) :
    (generate_test_frame (Format.new w h FourCC.YUYV) TestPattern.ColorBars).map
        (fun d => validate_color_bars ⟨d, m⟩ (Format.new w h FourCC.YUYV))
      = some (Except.ok ()) := by
  subst hw
  have hassoc : 2 * (8 * k) * h = (8 * k) * h * 2 := by ring
  have hsize : (8 * k) * h % U32 * 2 % U32 = 2 * (8 * k) * h := by
    rw [Nat.mod_eq_of_lt (by omega : (8 * k) * h < U32)]
    rw [Nat.mod_eq_of_lt (by omega : (8 * k) * h * 2 < U32)]
    omega
  have hbw : 0 < 8 * k / 8 := by omega
  have hgen : generate_test_frame (Format.new (8 * k) h FourCC.YUYV) TestPattern.ColorBars
      = some (runSteps (rowSteps (8 * k) h (barGrp (8 * k))) ⟨2 * (8 * k) * h, fun _ => 0⟩) := by
    rw [generate_test_frame]
    simp only [Format.new]
    rw [hsize]
    exact generate_color_bars_eq_runSteps _ _ _ hbw
  rw [hgen, Option.map_some']
  congr 1
  rw [validate_color_bars]
  simp only [Format.new]
  have h8 : 8 * k / 8 = k := by omega
  rw [h8]
  apply checkBars_ok
  intro p hp
  have henum : SMPTE_COLOR_BARS.enum
      = [(0, (235, 235, 235)), (1, (235, 235, 11)), (2, (12, 236, 237)),
         (3, (13, 237, 13)), (4, (237, 13, 237)), (5, (238, 14, 13)),
         (6, (15, 15, 239)), (7, (16, 16, 16))] := rfl
  rw [henum] at hp
  simp only [List.mem_cons, List.not_mem_nil, or_false] at hp
  rcases hp with rfl | rfl | rfl | rfl | rfl | rfl | rfl | rfl
  · exact ⟨_, c1_pixel k h m hk hh hov 0 (by omega), bars_rgb_ok ⟨0, by omega⟩⟩
  · exact ⟨_, c1_pixel k h m hk hh hov 1 (by omega), bars_rgb_ok ⟨1, by omega⟩⟩
  · exact ⟨_, c1_pixel k h m hk hh hov 2 (by omega), bars_rgb_ok ⟨2, by omega⟩⟩
  · exact ⟨_, c1_pixel k h m hk hh hov 3 (by omega), bars_rgb_ok ⟨3, by omega⟩⟩
  · exact ⟨_, c1_pixel k h m hk hh hov 4 (by omega), bars_rgb_ok ⟨4, by omega⟩⟩
  · exact ⟨_, c1_pixel k h m hk hh hov 5 (by omega), bars_rgb_ok ⟨5, by omega⟩⟩
  · exact ⟨_, c1_pixel k h m hk hh hov 6 (by omega), bars_rgb_ok ⟨6, by omega⟩⟩
  · exact ⟨_, c1_pixel k h m hk hh hov 7 (by omega), bars_rgb_ok ⟨7, by omega⟩⟩

/-! ## Gradient round trip (spec section 8, second property) -/

theorem gradLoop_run (fr : Frame) (w cy : ℕ) (gl : ℕ → ℕ) :
    ∀ (xs : List ℕ) (f : Dy) (gp : ℕ) (lst : Option Dy),
    (∀ x ∈ xs, fr.pixel_at x cy w = some (gl x, gl x, gl x)) →
    (∀ x ∈ xs, gl x ≤ 255) → gp ≤ 255 →
    (∀ x ∈ xs, gp ≤ gl x) →
    List.Pairwise (fun a b => gl a ≤ gl b) xs →
    (xs = [] ∧ gradLoop fr w cy xs (some f) (some (grayLum gp)) lst = .ok (some f, lst)) ∨
    (∃ xl, xl ∈ xs ∧ (∀ x ∈ xs, gl x ≤ gl xl) ∧
      gradLoop fr w cy xs (some f) (some (grayLum gp)) lst
        = .ok (some f, some (grayLum (gl xl))))
  | [], f, gp, lst, _, _, _, _, _ => Or.inl ⟨rfl, rfl⟩
  | x :: rest, f, gp, lst, Hpix, Hle, hgp, Hmono, Hsort => by
    right
    have hpx := Hpix x (List.mem_cons_self _ _)
    have hglx : gl x ≤ 255 := Hle x (List.mem_cons_self _ _)
    have hgpx : gp ≤ gl x := Hmono x (List.mem_cons_self _ _)
    have hhead : ∀ x' ∈ rest, gl x ≤ gl x' := (List.pairwise_cons.mp Hsort).1
    have htail : List.Pairwise (fun a b => gl a ≤ gl b) rest :=
      (List.pairwise_cons.mp Hsort).2
    have hnoerr : Dy.blt (grayLum (gl x)) (Dy.fsub (grayLum gp) (dyN 1)) = false := by
      rw [Bool.eq_false_iff]
      intro hcon
      have h1 := (Dy.blt_iff _ _).mp hcon
      have h2 := (Dy.ble_iff _ _).mp (grayLum_slack ⟨gp, by omega⟩)
      have h3 := grayLum_mono gp (gl x) hgpx hglx
      simp only at h1 h2 h3
      linarith
    have hrec := gradLoop_run fr w cy gl rest (f) (gl x) (some (grayLum (gl x)))
      (fun q hq => Hpix q (List.mem_cons_of_mem _ hq))
      (fun q hq => Hle q (List.mem_cons_of_mem _ hq))
      hglx hhead htail
    have heqstep : gradLoop fr w cy (x :: rest) (some f) (some (grayLum gp)) lst
        = gradLoop fr w cy rest (some f) (some (grayLum (gl x))) (some (grayLum (gl x))) := by
      simp only [gradLoop]
      rw [hpx]
      show (if Dy.blt (luminance (gl x, gl x, gl x)) (Dy.fsub (grayLum gp) (dyN 1)) = true then
          Except.error (CameraError.StreamError ("Gradient not monotonically increasing at x=" ++
            Nat.repr x))
        else gradLoop fr w cy rest (some f) (some (luminance (gl x, gl x, gl x)))
          (some (luminance (gl x, gl x, gl x)))) = _
      rw [show luminance (gl x, gl x, gl x) = grayLum (gl x) from rfl, hnoerr]
      simp only [Bool.false_eq_true, if_false]
    rw [heqstep]
    rcases hrec with ⟨hnil, heq⟩ | ⟨xl, hxl, hmax, heq⟩
    · subst hnil
      refine ⟨x, List.mem_cons_self _ _, ?_, heq⟩
      intro q hq
      rcases List.mem_cons.mp hq with rfl | hq'
      · exact le_refl _
      · exact absurd hq' (List.not_mem_nil q)
    · refine ⟨xl, List.mem_cons_of_mem _ hxl, ?_, heq⟩
      intro q hq
      rcases List.mem_cons.mp hq with rfl | hq'
      · exact le_trans (le_refl _) (hhead xl hxl)
      · exact hmax q hq'

/-- C5 (amended): for even `width ≥ 12`, `height ≥ 1`, and sizes within
`u32` range (`2*width*height < 2^32` and `255*width < 2^32`), a synthetic
gradient frame for `Format::new(width, height, YUYV)` passes
`validate_gradient` against the same format. (At `width = 10` the claim
fails, see the counterexample.) -/
theorem gradient_validate_generated (w h : ℕ) (m : FrameMetadata)
    (hw12 : 12 ≤ w) (hwe : w % 2 = 0) (hh : 1 ≤ h)
    (hov : 2 * w * h < U32) (hov255 : 255 * w < U32) :
    (generate_test_frame (Format.new w h FourCC.YUYV) TestPattern.Gradient).map
        (fun d => validate_gradient ⟨d, m⟩ (Format.new w h FourCC.YUYV))
      = some (Except.ok ()) := by
  have hr1 : 2 * w * h = w * h * 2 := by ring
  have hsize : w * h % U32 * 2 % U32 = 2 * w * h := by
    rw [Nat.mod_eq_of_lt (by omega : w * h < U32)]
    rw [Nat.mod_eq_of_lt (by omega : w * h * 2 < U32)]
    omega
  set buf := runSteps (rowSteps w h (gradGrp w)) ⟨2 * w * h, fun _ => 0⟩ with hbuf
  have hgen : generate_test_frame (Format.new w h FourCC.YUYV) TestPattern.Gradient
      = some buf := by
    rw [generate_test_frame]
    simp only [Format.new]
    rw [hsize, hbuf]
    rw [generate_gradient_eq_runSteps]
  rw [hgen, Option.map_some']
  congr 1
  -- the gray level written at column x
  set gl : ℕ → ℕ := fun x => x * 255 / w with hgl
  have hgl255 : ∀ x, x < w → gl x < 256 := by
    intro x hx
    rw [hgl]
    simp only
    rw [Nat.div_lt_iff_lt_mul (by omega : 0 < w)]
    omega
  have hgrad : ∀ x, x < w → gradGrp w x = (gl x, 128, gl x, 128) := by
    intro x hx
    rw [gradGrp]
    have h1 : x * 255 < U32 := by
      have : x * 255 ≤ w * 255 := Nat.mul_le_mul_right 255 (by omega)
      have h2 : w * 255 = 255 * w := Nat.mul_comm w 255
      omega
    rw [Nat.mod_eq_of_lt h1]
    rw [Nat.mod_eq_of_lt (hgl255 x hx)]
  have hpix : ∀ x, x % 2 = 0 → x < w →
      Frame.pixel_at ⟨buf, m⟩ x (h / 2) w = some (gl x, gl x, gl x) := by
    intro x hxe hxw
    have hx0 : x - x % 2 = x := by omega
    have hrep : (gradGrp w (x - x % 2)).2.2.1 = (gradGrp w (x - x % 2)).1 := rfl
    have h1 := pixel_at_rowSteps w h (gradGrp w) m hwe hov x (h / 2) hxw
      (by omega : h / 2 < h) hrep
    rw [hx0, hgrad x hxw] at h1
    rw [← hbuf] at h1
    rw [h1]
    simp only
    rw [yuv_gray ⟨gl x, hgl255 x hxw⟩]
  -- decompose the sample list
  set n := (w + 9) / 10 with hn
  have hn2 : 2 ≤ n := by omega
  have hten : tenSteps w = 0 :: (List.range (n - 1)).map (fun t => 10 * (t + 1)) := by
    have h1 : (w + 9) / 10 = (n - 1) + 1 := by omega
    rw [tenSteps, h1, List.range_succ_eq_map, List.map_cons, List.map_map]
    norm_num
  have hsample : ∀ t, t < n - 1 → 10 * (t + 1) < w ∧ 10 * (t + 1) % 2 = 0 := by
    intro t ht
    constructor
    · have : 10 * (t + 1) ≤ 10 * (n - 1) := by omega
      omega
    · omega
  have hglmono : ∀ a b : ℕ, a ≤ b → gl a ≤ gl b := by
    intro a b hab
    rw [hgl]
    simp only
    exact Nat.div_le_div_right (Nat.mul_le_mul_right 255 hab)
  -- run the loop on the tail
  have hrun := gradLoop_run ⟨buf, m⟩ w (h / 2) gl
    ((List.range (n - 1)).map (fun t => 10 * (t + 1))) (grayLum 0) 0 (some (grayLum 0))
    (by
      intro q hq
      obtain ⟨t, ht, rfl⟩ := List.mem_map.mp hq
      have ht' := List.mem_range.mp ht
      exact hpix _ (hsample t ht').2 (hsample t ht').1)
    (by
      intro q hq
      obtain ⟨t, ht, rfl⟩ := List.mem_map.mp hq
      have ht' := List.mem_range.mp ht
      have := hgl255 _ (hsample t ht').1
      omega)
    (by omega)
    (by intro q _; omega)
    (List.Pairwise.map _ (fun a b hab => hglmono _ _ (by omega))
      (List.pairwise_lt_range (n - 1)))
  have hrest_ne : (List.range (n - 1)).map (fun t => 10 * (t + 1)) ≠ [] := by
    simp only [ne_eq, List.map_eq_nil_iff, List.range_eq_nil]
    omega
  rcases hrun with ⟨habs, _⟩ | ⟨xl, hxl, hmax, heq⟩
  · exact absurd habs hrest_ne
  -- the biggest sample
  have hxbig : 10 * ((n - 2) + 1) ∈ (List.range (n - 1)).map (fun t => 10 * (t + 1)) := by
    apply List.mem_map.mpr
    exact ⟨n - 2, List.mem_range.mpr (by omega), rfl⟩
  have hglxl255 : gl xl ≤ 255 := by
    obtain ⟨t, ht, rfl⟩ := List.mem_map.mp hxl
    have ht' := List.mem_range.mp ht
    have := hgl255 _ (hsample t ht').1
    omega
  have h50 : 50 ≤ gl xl := by
    have hb := hmax _ hxbig
    have hxbigval : 10 * ((n - 2) + 1) = 10 * (n - 1) := by omega
    rw [hxbigval] at hb
    have hge : 50 ≤ gl (10 * (n - 1)) := by
      rw [hgl]
      simp only
      rcases le_or_lt w 20 with hw20 | hw21
      · have hne : n - 1 = 1 := by omega
        rw [hne]
        have h1 : (2550 : ℕ) / 20 ≤ 2550 / w := Nat.div_le_div_left hw20 (by omega)
        norm_num at h1 ⊢
        omega
      · have hxb : w - 10 ≤ 10 * (n - 1) := by omega
        have h1 : (w - 10) * 255 ≤ 10 * (n - 1) * 255 := Nat.mul_le_mul_right 255 hxb
        have h2 : (w - 10) * 255 / w ≤ 10 * (n - 1) * 255 / w := Nat.div_le_div_right h1
        have h3 : 50 ≤ (w - 10) * 255 / w := by
          rw [Nat.le_div_iff_mul_le (by omega : 0 < w)]
          omega
        omega
    omega
  have hfinal : Dy.blt (Dy.fsub (grayLum (gl xl)) (grayLum 0)) (dyN 50) = false := by
    rw [Bool.eq_false_iff]
    intro hcon
    have h1 := (Dy.blt_iff _ _).mp hcon
    have h2 := (Dy.ble_iff _ _).mp (grayLum_change ⟨gl xl, by omega⟩ h50)
    simp only at h1 h2
    linarith
  -- assemble
  rw [validate_gradient]
  simp only [Format.new]
  rw [hten]
  simp only [gradLoop]
  rw [hpix 0 (by omega) (by omega)]
  have hgl0 : gl 0 = 0 := by rw [hgl]; simp
  rw [hgl0]
  show (match gradLoop ⟨buf, m⟩ w (h / 2) ((List.range (n - 1)).map (fun t => 10 * (t + 1)))
      (some (luminance (0, 0, 0))) (some (luminance (0, 0, 0))) (some (luminance (0, 0, 0))) with
    | .error e => Except.error e
    | .ok (first, last) =>
      match first, last with
      | some fv, some lv =>
        if Dy.blt (Dy.fsub lv fv) (dyN 50) = true then
          Except.error (CameraError.StreamError ("Insufficient luminance change for gradient"))
        else Except.ok ()
      | _, _ => Except.ok ()) = Except.ok ()
  rw [show luminance (0, 0, 0) = grayLum 0 from rfl]
  rw [heq]
  show (if Dy.blt (Dy.fsub (grayLum (gl xl)) (grayLum 0)) (dyN 50) = true then
      Except.error (CameraError.StreamError ("Insufficient luminance change for gradient"))
    else Except.ok ()) = Except.ok ()
  rw [hfinal]
  simp only [Bool.false_eq_true, if_false]

/-! ## Frame-sequence validation -/

/-- Frames with the given sequence numbers (and empty data buffers). -/
def seqFrames (seqs : List ℕ) : List Frame :=
  seqs.map (fun s => ⟨⟨0, fun _ => 0⟩, ⟨s, 0, 0⟩⟩)

theorem seqStep_error (frames : List Frame) (e : CameraError) (i : ℕ) :
    seqStep frames (Except.error e) i = Except.error e := rfl

theorem seqFold_ok (frames : List Frame) :
    ∀ n, n < frames.length →
    (((List.range' 1 n).foldl (seqStep frames) (Except.ok ()) = Except.ok ())
      ↔ (∀ i, 1 ≤ i → i ≤ n → ∀ fp fc, frames.get? (i - 1) = some fp →
          frames.get? i = some fc →
          fc.metadata.sequence = (fp.metadata.sequence + 1) % U32))
  | 0, _ => by
    constructor
    · intro _ i h1 h2
      omega
    · intro _
      rfl
  | n + 1, hn => by
    have ih := seqFold_ok frames n (by omega)
    have hsplit : List.range' 1 (n + 1) = List.range' 1 n ++ [1 + 1 * n] :=
      List.range'_concat 1 n
    rw [hsplit, List.foldl_append, List.foldl_cons, List.foldl_nil]
    have h1n : 1 + 1 * n = n + 1 := by omega
    rw [h1n]
    obtain ⟨fp, hfp⟩ : ∃ fp, frames.get? n = some fp :=
      ⟨frames.get ⟨n, by omega⟩, List.get?_eq_get (by omega)⟩
    obtain ⟨fc, hfc⟩ : ∃ fc, frames.get? (n + 1) = some fc :=
      ⟨frames.get ⟨n + 1, by omega⟩, List.get?_eq_get (by omega)⟩
    cases hA : (List.range' 1 n).foldl (seqStep frames) (Except.ok ()) with
    | error e =>
      rw [seqStep_error]
      constructor
      · intro habs
        exact absurd habs (by simp)
      · intro H
        have hok := ih.mpr (fun i hi1 hi2 => H i hi1 (by omega))
        rw [hA] at hok
        exact absurd hok (by simp)
    | ok u =>
      have hbody : seqStep frames (Except.ok ()) (n + 1)
          = if fc.metadata.sequence ≠ (fp.metadata.sequence + 1) % U32 then
              Except.error (CameraError.StreamError ("Frame sequence gap at index " ++
                Nat.repr (n + 1) ++ ": expected " ++
                Nat.repr ((fp.metadata.sequence + 1) % U32) ++ ", got " ++
                Nat.repr fc.metadata.sequence))
            else Except.ok () := by
        rw [seqStep]
        show (match frames.get? (n + 1 - 1) with
          | none => Except.error (CameraError.StreamError ("Failed to get frame at index " ++
              Nat.repr (n + 1 - 1)))
          | some prev_frame =>
            match frames.get? (n + 1) with
            | none => Except.error (CameraError.StreamError ("Failed to get frame at index " ++
                Nat.repr (n + 1)))
            | some curr_frame =>
              if curr_frame.metadata.sequence ≠ (prev_frame.metadata.sequence + 1) % U32 then
                Except.error (CameraError.StreamError ("Frame sequence gap at index " ++
                  Nat.repr (n + 1) ++ ": expected " ++
                  Nat.repr ((prev_frame.metadata.sequence + 1) % U32) ++ ", got " ++
                  Nat.repr curr_frame.metadata.sequence))
              else Except.ok ()) = _
        rw [show n + 1 - 1 = n by omega, hfp, hfc]
      cases u
      rw [hbody]
      by_cases hseq : fc.metadata.sequence = (fp.metadata.sequence + 1) % U32
      · rw [if_neg (by simpa using hseq)]
        constructor
        · intro _ i hi1 hi2 fp' fc' hfp' hfc'
          rcases Nat.lt_or_ge i (n + 1) with hlt | hge
          · have hok : (List.range' 1 n).foldl (seqStep frames) (Except.ok ())
                = Except.ok () := hA
            exact (ih.mp hok) i hi1 (by omega) fp' fc' hfp' hfc'
          · have : i = n + 1 := by omega
            subst this
            rw [show n + 1 - 1 = n by omega] at hfp'
            rw [hfp] at hfp'
            rw [hfc] at hfc'
            cases hfp'
            cases hfc'
            exact hseq
        · intro _
          rfl
      · rw [if_pos (by simpa using hseq)]
        constructor
        · intro habs
          exact absurd habs (by simp)
        · intro H
          exact absurd (H (n + 1) (by omega) (by omega) fp fc
            (by rw [show n + 1 - 1 = n by omega]; exact hfp) hfc) hseq

/-- C6 (amended): the frame-sequence validator rejects the empty slice,
accepts `[0,1,2,3,4]`, rejects `[0,1,3,4]` with an error naming index 2 and
expected value 2, and in general accepts exactly the non-empty slices where
each adjacent pair of sequence numbers satisfies
`next = (prev + 1) mod 2^32` (`u32` wrap-around increment). -/
theorem frame_sequence_spec :
    validate_frame_sequence []
      = Except.error (CameraError.StreamError ("Cannot validate empty frame sequence"))
    ∧ (∀ frames : List Frame, validate_frame_sequence frames = Except.ok ()
        ↔ (frames ≠ [] ∧ ∀ i fp fc, frames.get? i = some fp →
            frames.get? (i + 1) = some fc →
            fc.metadata.sequence = (fp.metadata.sequence + 1) % U32))
    ∧ validate_frame_sequence (seqFrames [0, 1, 2, 3, 4]) = Except.ok ()
    ∧ validate_frame_sequence (seqFrames [0, 1, 3, 4])
        = Except.error (CameraError.StreamError
            ("Frame sequence gap at index 2: expected 2, got 3")) := by
  refine ⟨rfl, ?_, rfl, rfl⟩
  intro frames
  rw [validate_frame_sequence]
  by_cases hemp : frames.isEmpty
  · rw [if_pos hemp]
    have he : frames = [] := List.isEmpty_iff.mp hemp
    subst he
    constructor
    · intro habs
      exact absurd habs (by simp)
    · intro ⟨habs, _⟩
      exact absurd rfl habs
  · rw [if_neg hemp]
    have hlen : 1 ≤ frames.length := by
      rcases frames with _ | ⟨a, l⟩
      · simp at hemp
      · simp
    rw [seqFold_ok frames (frames.length - 1) (by omega)]
    constructor
    · intro H
      refine ⟨by simpa using hemp, ?_⟩
      intro i fp fc hfp hfc
      have hi : i + 1 < frames.length := by
        by_contra hcon
        rw [List.get?_eq_none.mpr (by omega)] at hfc
        exact Option.noConfusion hfc
      exact H (i + 1) (by omega) (by omega) fp fc
        (by rw [show i + 1 - 1 = i by omega]; exact hfp) hfc
    · intro ⟨_, H⟩ i hi1 hi2 fp fc hfp hfc
      have h1 : i - 1 + 1 = i := by omega
      exact H (i - 1) fp fc hfp (by rw [h1]; exact hfc)

/-! ## Remaining claims: format construction, device operations, pixel lookup -/

instance {ε α : Type} [DecidableEq ε] [DecidableEq α] : DecidableEq (Except ε α) := fun x y =>
  match x, y with
  | Except.ok a, Except.ok b =>
    if h : a = b then Decidable.isTrue (by rw [h])
    else Decidable.isFalse (fun hc => h (Except.ok.inj hc))
  | Except.error a, Except.error b =>
    if h : a = b then Decidable.isTrue (by rw [h])
    else Decidable.isFalse (fun hc => h (Except.error.inj hc))
  | Except.ok _, Except.error _ => Decidable.isFalse (fun hc => Except.noConfusion hc)
  | Except.error _, Except.ok _ => Decidable.isFalse (fun hc => Except.noConfusion hc)

/-- C7: `Format::new` stores width, height and the pixel code exactly as
given, derives `stride = width * 2` and `size = stride * height` in `u32`
arithmetic, and in particular `Format::new(640, 480, YUYV)` has stride
`1280` and size `614400`. -/
theorem format_new_spec (w h : ℕ) (c : FourCC) :
    ((Format.new w h c).width = w ∧ (Format.new w h c).height = h
      ∧ (Format.new w h c).fourcc = c
      ∧ (Format.new w h c).stride = w * 2 % U32
      ∧ (Format.new w h c).size = (Format.new w h c).stride * h % U32)
    ∧ (Format.new 640 480 FourCC.YUYV).stride = 1280
    ∧ (Format.new 640 480 FourCC.YUYV).size = 614400 :=
  ⟨⟨rfl, rfl, rfl, rfl, rfl⟩, by decide, by decide⟩

/-- C9: `MockDevice::set_format` returns `Ok` of exactly the requested
format, stores it, and a subsequent `format()` call returns it. -/
theorem set_format_spec (d : MockDevice) (f : Format) :
    MockDevice.set_format d f = (Except.ok f, { d with format := f })
    ∧ (MockDevice.set_format d f).2.getFormat = Except.ok f :=
  ⟨rfl, rfl⟩

/-- C3 (amended): `pixel_at` returns `None` exactly when the 4-byte group
at the computed offset exceeds the buffer; there is no `x ≥ width` check
(see the counterexample), and every in-bounds offset yields `Some`. -/
theorem pixel_at_none_iff (d : Buf) (m : FrameMetadata) (x y width : ℕ) :
    Frame.pixel_at ⟨d, m⟩ x y width = none
      ↔ d.len ≤ ((y * width) % U32 + (x - x % 2)) % U32 * 2 % U32 + 3 := by
  rw [Frame.pixel_at]
  simp only
  set o := ((y * width) % U32 + (x - x % 2)) % U32 * 2 % U32 with ho
  by_cases hb : o + 3 ≥ d.len
  · rw [if_pos hb]
    exact iff_of_true rfl (by omega)
  · rw [if_neg hb]
    have hfirst : (if x % 2 = 0 then Buf.get? d o else Buf.get? d (o + 2))
        = some (if x % 2 = 0 then d.val o else d.val (o + 2)) := by
      by_cases hpar : x % 2 = 0
      · rw [if_pos hpar, if_pos hpar, Buf.get?, if_pos (by omega)]
      · rw [if_neg hpar, if_neg hpar, Buf.get?, if_pos (by omega)]
    have hg1 : Buf.get? d (o + 1) = some (d.val (o + 1)) := by
      rw [Buf.get?, if_pos (by omega)]
    have hg3 : Buf.get? d (o + 3) = some (d.val (o + 3)) := by
      rw [Buf.get?, if_pos (by omega)]
    rw [hfirst, hg1, hg3]
    exact iff_of_false (fun hc => Option.noConfusion hc) (by omega)

/-- C3 counterexample: on a 32-byte (4x4 YUYV) buffer, `pixel_at(6, 0, 4)`
has `x = 6 ≥ width = 4` yet returns `Some` (the offset is still in bounds),
contradicting "returns None whenever x ≥ width". -/
theorem pixel_at_x_beyond_width :
    (Frame.pixel_at ⟨⟨32, fun _ => 0⟩, ⟨0, 0, 0⟩⟩ 6 0 4).isSome = true
    ∧ (4 : ℕ) ≤ 6 := by
  constructor
  · decide
  · decide

/-- C8: for even `x`, `pixel_at` at `x` and at `x + 1` read the same 4-byte
group: same chroma bytes (offsets +1 and +3), luma from offset +0
respectively +2; if the two luma bytes agree the results coincide. -/
theorem pixel_pair_chroma (d : Buf) (m : FrameMetadata) (x y width : ℕ)
    (hxe : x % 2 = 0)
    (hlen : ((y * width) % U32 + x) % U32 * 2 % U32 + 3 < d.len) :
    (Frame.pixel_at ⟨d, m⟩ x y width
        = some (yuv_to_rgb (d.val (((y * width) % U32 + x) % U32 * 2 % U32))
            (d.val (((y * width) % U32 + x) % U32 * 2 % U32 + 1))
            (d.val (((y * width) % U32 + x) % U32 * 2 % U32 + 3))))
    ∧ (Frame.pixel_at ⟨d, m⟩ (x + 1) y width
        = some (yuv_to_rgb (d.val (((y * width) % U32 + x) % U32 * 2 % U32 + 2))
            (d.val (((y * width) % U32 + x) % U32 * 2 % U32 + 1))
            (d.val (((y * width) % U32 + x) % U32 * 2 % U32 + 3))))
    ∧ (d.val (((y * width) % U32 + x) % U32 * 2 % U32)
          = d.val (((y * width) % U32 + x) % U32 * 2 % U32 + 2) →
        Frame.pixel_at ⟨d, m⟩ x y width = Frame.pixel_at ⟨d, m⟩ (x + 1) y width) := by
  have hpx : x - x % 2 = x := by omega
  have hpx1 : (x + 1) - (x + 1) % 2 = x := by omega
  have h1 : Frame.pixel_at ⟨d, m⟩ x y width
      = some (yuv_to_rgb (d.val (((y * width) % U32 + x) % U32 * 2 % U32))
          (d.val (((y * width) % U32 + x) % U32 * 2 % U32 + 1))
          (d.val (((y * width) % U32 + x) % U32 * 2 % U32 + 3))) := by
    rw [Frame.pixel_at]
    simp only [hpx]
    rw [if_neg (by omega)]
    rw [if_pos hxe]
    rw [Buf.get?, if_pos (by omega), Buf.get?, if_pos (by omega), Buf.get?,
      if_pos (by omega)]
  have h2 : Frame.pixel_at ⟨d, m⟩ (x + 1) y width
      = some (yuv_to_rgb (d.val (((y * width) % U32 + x) % U32 * 2 % U32 + 2))
          (d.val (((y * width) % U32 + x) % U32 * 2 % U32 + 1))
          (d.val (((y * width) % U32 + x) % U32 * 2 % U32 + 3))) := by
    rw [Frame.pixel_at]
    simp only [hpx1]
    rw [if_neg (by omega)]
    rw [if_neg (by omega)]
    rw [Buf.get?, if_pos (by omega), Buf.get?, if_pos (by omega), Buf.get?,
      if_pos (by omega)]
  refine ⟨h1, h2, fun hl => ?_⟩
  rw [h1, h2, hl]

/-- Concrete buffer for the C8 witness: one YUYV group with equal lumas. -/
def bufW : Buf := ⟨8, fun i => if i = 0 then 50 else if i = 2 then 50 else 128⟩

/-- C8 witness at the concrete buffer `bufW`, `x = 0`, `y = 0`, `width = 2`. -/
theorem pixel_pair_chroma_witness :
    (0 % 2 = 0) ∧ ((0 * 2 % U32 + 0) % U32 * 2 % U32 + 3 < bufW.len)
    ∧ ((Frame.pixel_at ⟨bufW, ⟨0, 0, 0⟩⟩ 0 0 2
          = some (yuv_to_rgb (bufW.val ((0 * 2 % U32 + 0) % U32 * 2 % U32))
              (bufW.val ((0 * 2 % U32 + 0) % U32 * 2 % U32 + 1))
              (bufW.val ((0 * 2 % U32 + 0) % U32 * 2 % U32 + 3))))
        ∧ (Frame.pixel_at ⟨bufW, ⟨0, 0, 0⟩⟩ 1 0 2
          = some (yuv_to_rgb (bufW.val ((0 * 2 % U32 + 0) % U32 * 2 % U32 + 2))
              (bufW.val ((0 * 2 % U32 + 0) % U32 * 2 % U32 + 1))
              (bufW.val ((0 * 2 % U32 + 0) % U32 * 2 % U32 + 3))))
        ∧ (bufW.val ((0 * 2 % U32 + 0) % U32 * 2 % U32)
              = bufW.val ((0 * 2 % U32 + 0) % U32 * 2 % U32 + 2) →
            Frame.pixel_at ⟨bufW, ⟨0, 0, 0⟩⟩ 0 0 2
              = Frame.pixel_at ⟨bufW, ⟨0, 0, 0⟩⟩ 1 0 2)) :=
  ⟨rfl, by decide, pixel_pair_chroma bufW ⟨0, 0, 0⟩ 0 0 2 rfl (by decide)⟩

/-! ## Mock stream behaviour -/

theorem foldl_len_preserved {α : Type} (f : Buf → α → Buf)
    (hf : ∀ d a, (f d a).len = d.len) :
    ∀ (l : List α) (d : Buf), (l.foldl f d).len = d.len
  | [], _ => rfl
  | a :: rest, d => by
    rw [List.foldl_cons, foldl_len_preserved f hf rest (f d a), hf]

theorem generate_test_frame_len (fmt : Format) (p : TestPattern) (data : Buf)
    (h : generate_test_frame fmt p = some data) :
    data.len = fmt.width * fmt.height % U32 * 2 % U32 := by
  cases p with
  | ColorBars =>
    simp only [generate_test_frame] at h
    rw [generate_color_bars] at h
    split at h
    · exact absurd h (by simp)
    · have hd := Option.some.inj h
      rw [← hd]
      refine foldl_len_preserved _ (fun d y => ?_) _ _
      exact foldl_len_preserved _ (fun d2 x => writeGroup_len ..) _ _
  | Gradient =>
    simp only [generate_test_frame] at h
    have hd := Option.some.inj h
    rw [← hd, generate_gradient]
    refine foldl_len_preserved _ (fun d y => ?_) _ _
    exact foldl_len_preserved _ (fun d2 x => writeGroup_len ..) _ _
  | Solid yv uv vv =>
    simp only [generate_test_frame] at h
    have hd := Option.some.inj h
    rw [← hd, generate_solid]
    exact foldl_len_preserved _ (fun d2 x => writeGroup_len ..) _ _

/-- C10 (amended): whenever `next_frame` returns (it aborts exactly when
frame generation does, i.e. for the color-bar pattern with `0 < width < 8`
and `height ≥ 1`), it returns `Ok` — there is no `Err` path — with data
length `width * height * 2` computed from the device's current format in
`u32` arithmetic, `bytes_used` equal to the format's stored `size` field,
and the two agree for any format built by `Format::new`. -/
theorem next_frame_spec (s : MockStream) (pr : Except CameraError Frame × MockStream)
    (h : MockStream.next_frame s = some pr) :
    ∃ fr : Frame, pr.1 = Except.ok fr
      ∧ fr.data.len = s.device.format.width * s.device.format.height % U32 * 2 % U32
      ∧ fr.metadata.bytes_used = s.device.format.size
      ∧ (∀ w hh c, s.device.format = Format.new w hh c →
          fr.data.len = fr.metadata.bytes_used) := by
  obtain ⟨data, hgen, heq⟩ := Option.map_eq_some'.mp h
  subst heq
  refine ⟨_, rfl, generate_test_frame_len _ _ _ hgen, rfl, ?_⟩
  intro w hh c hfmt
  simp only
  rw [generate_test_frame_len _ _ _ hgen, hfmt]
  show (Format.new w hh c).width * (Format.new w hh c).height % U32 * 2 % U32
    = (Format.new w hh c).size
  simp only [Format.new]
  rw [Nat.mod_mul_mod, Nat.mod_mul_mod]
  congr 1
  ring

/-- Concrete stream for witnesses: a fresh mock device at 8x1 YUYV. -/
def streamW : MockStream :=
  ⟨MockDevice.new.with_format (Format.new 8 1 FourCC.YUYV), TestPattern.ColorBars⟩

/-- The result of the first `next_frame` call on `streamW`. -/
def nfW : Except CameraError Frame × MockStream :=
  (MockStream.next_frame streamW).getD (Except.error CameraError.Timeout, streamW)

/-- C10 witness: the spec instantiated at `streamW`. -/
theorem next_frame_spec_witness :
    ∃ fr : Frame, nfW.1 = Except.ok fr
      ∧ fr.data.len = streamW.device.format.width * streamW.device.format.height % U32 * 2 % U32
      ∧ fr.metadata.bytes_used = streamW.device.format.size
      ∧ (∀ w hh c, streamW.device.format = Format.new w hh c →
          fr.data.len = fr.metadata.bytes_used) :=
  next_frame_spec streamW nfW rfl

/-- C10 counterexample: with format 2x1 and the default color-bar pattern,
`next_frame` does not return at all (division-by-zero abort, modelled as
`none`), contradicting "always returns Ok". -/
theorem next_frame_aborts :
    MockStream.next_frame ⟨MockDevice.new.with_format (Format.new 2 1 FourCC.YUYV),
      TestPattern.ColorBars⟩ = none := rfl

/-- C4 (amended): `sequence` is the device's running frame counter:
each returned frame carries the pre-increment counter value and the counter
advances by 1 (mod `2^32`) per call; `create_stream` hands the device state
(counter included) to the new stream without resetting it, so a second
stream continues from the previous count instead of restarting at 0. -/
theorem stream_sequence_spec (s : MockStream) (pr : Except CameraError Frame × MockStream)
    (h : MockStream.next_frame s = some pr) :
    (∃ fr, pr.1 = Except.ok fr ∧ fr.metadata.sequence = s.device.frame_count)
    ∧ pr.2.device.frame_count = (s.device.frame_count + 1) % U32
    ∧ pr.2.pattern = s.pattern ∧ pr.2.device.format = s.device.format
    ∧ (∀ (d : MockDevice) (bc : ℕ), MockDevice.create_stream d bc
        = Except.ok ⟨d, TestPattern.ColorBars⟩) := by
  obtain ⟨data, hgen, heq⟩ := Option.map_eq_some'.mp h
  subst heq
  exact ⟨⟨_, rfl, rfl⟩, rfl, rfl, rfl, fun d bc => rfl⟩

/-- C4 witness: the spec instantiated at `streamW`. -/
theorem stream_sequence_witness :
    (∃ fr, nfW.1 = Except.ok fr ∧ fr.metadata.sequence = streamW.device.frame_count)
    ∧ nfW.2.device.frame_count = (streamW.device.frame_count + 1) % U32
    ∧ nfW.2.pattern = streamW.pattern ∧ nfW.2.device.format = streamW.device.format
    ∧ (∀ (d : MockDevice) (bc : ℕ), MockDevice.create_stream d bc
        = Except.ok ⟨d, TestPattern.ColorBars⟩) :=
  stream_sequence_spec streamW nfW rfl

/-- C4 counterexample: after one frame on a first stream, a second stream
created from the same device returns sequence 1 on its first `next_frame`,
not 0 as the claim requires. -/
theorem stream_restart_cex :
    (MockDevice.create_stream nfW.2.device 4).map (fun s2 =>
        (MockStream.next_frame s2).map (fun pr2 => pr2.1.map (fun fr => fr.metadata.sequence)))
      = Except.ok (some (Except.ok 1)) ∧ (1 : ℕ) ≠ 0 := by
  constructor
  · rfl
  · decide

/-- C2 (code-bug evidence): for any format with `0 < width < 8` (here 2x1)
the color-bar generator executes `x / bar_width` with `bar_width = width / 8
= 0`, a `u32` division by zero, so generation — and `next_frame` — aborts
instead of returning a value (modelled as `none`). -/
theorem color_bars_div_by_zero :
    generate_test_frame (Format.new 2 1 FourCC.YUYV) TestPattern.ColorBars = none
    ∧ MockStream.next_frame ⟨MockDevice.new.with_format (Format.new 2 1 FourCC.YUYV),
        TestPattern.ColorBars⟩ = none :=
  ⟨rfl, rfl⟩

set_option maxRecDepth 100000 in
/-- C1 counterexample: at width 8 (a positive multiple of 8) and height 1,
the generated color-bar frame fails `validate_color_bars`: with
`bar_width = 1`, bar 1 is sampled at the odd column 1 whose luma/chroma
group is the White group written at column 0. -/
theorem color_bars_width8_fails :
    (generate_test_frame (Format.new 8 1 FourCC.YUYV) TestPattern.ColorBars).map
        (fun d => validate_color_bars ⟨d, ⟨0, 0, 0⟩⟩ (Format.new 8 1 FourCC.YUYV))
      ≠ some (Except.ok ())
    ∧ 8 % 8 = 0 ∧ (0 : ℕ) < 8 ∧ (1 : ℕ) ≤ 1 := by
  refine ⟨by decide, by decide, by decide, by decide⟩

/-- C1 witness: width 16, height 1. -/
theorem color_bars_validate_witness :
    (generate_test_frame (Format.new 16 1 FourCC.YUYV) TestPattern.ColorBars).map
        (fun d => validate_color_bars ⟨d, ⟨0, 0, 0⟩⟩ (Format.new 16 1 FourCC.YUYV))
      = some (Except.ok ()) :=
  color_bars_validate_generated 16 1 2 ⟨0, 0, 0⟩ (by decide) (by decide) (by decide) (by decide)

set_option maxRecDepth 100000 in
/-- C5 counterexample: at width 10 and height 10, the generated gradient
frame fails `validate_gradient`: only the single column 0 is sampled, so
the total luminance change is 0, below the required 50. -/
theorem gradient_width10_fails :
    (generate_test_frame (Format.new 10 10 FourCC.YUYV) TestPattern.Gradient).map
        (fun d => validate_gradient ⟨d, ⟨0, 0, 0⟩⟩ (Format.new 10 10 FourCC.YUYV))
      ≠ some (Except.ok ()) := by
  decide

/-- C5 witness: width 12, height 1. -/
theorem gradient_validate_witness :
    (generate_test_frame (Format.new 12 1 FourCC.YUYV) TestPattern.Gradient).map
        (fun d => validate_gradient ⟨d, ⟨0, 0, 0⟩⟩ (Format.new 12 1 FourCC.YUYV))
      = some (Except.ok ()) :=
  gradient_validate_generated 12 1 ⟨0, 0, 0⟩ (by decide) (by decide) (by decide)
    (by decide) (by decide)

/-- C6 counterexample: sequence numbers `[4294967295, 0]` (the `u32`
wrap-around pair) are accepted by the validator although they do not differ
by exactly 1 as integers. -/
theorem frame_sequence_wrap_accepted :
    validate_frame_sequence (seqFrames [4294967295, 0]) = Except.ok ()
    ∧ (0 : ℕ) ≠ 4294967295 + 1 := by
  constructor
  · rfl
  · decide

end PiCam
